import Mathlib

/-!
Shallow embedding of `src/finalproject/protocols.cc`, an ns-3 simulation
driver comparing the AODV and DSDV MANET routing protocols.

The program consists of two driver classes, `AodvExample` and `DsdvExample`,
each with methods `Configure`, `Run`, `CreateNodes`, `CreateDevices`,
`InstallInternetStack` and `InstallApplications`, plus a `main` function that
asks the user which protocol to run.

Modelling conventions:
- `uint32_t` values are `Nat` together with explicit reduction modulo `2^32`
  where C unsigned wrap-around matters (`sub32` below models unsigned
  subtraction).
- `double` durations are modelled as `Rat`.  The only arithmetic performed on
  them in the source is `duration / 2` (exact in binary floating point: the
  exponent decreases by one) and `duration - 0.001`; neither claim under
  consideration depends on rounding of the latter.
- The C library `rand()` stream is modelled as a function `r : Nat → Nat`
  giving the successive return values of `rand()`; the k-th call made by
  `InstallApplications` reads `r k`.  The three `rand()` calls building a
  relocation `Vector` are read left to right (the C++ evaluation order of the
  three arguments is unspecified; every claim treated here is insensitive to
  that order).
- Calls into the ns-3 framework (helpers, the scheduler) are recorded as
  inert data: the embedding keeps the arguments the program passes to the
  framework, since the framework itself is out of scope.
- Fallible container indexing (`NodeContainer::Get`,
  `Ipv4InterfaceContainer::GetAddress`, reads of the local `numbers` array)
  is modelled with `Option`: the embedding returns `none` exactly when the
  source would perform an out-of-bounds access.
- Loops `for (i = a; i < b; i++)` are embedded structurally with a fuel
  argument holding the number of remaining iterations (`b - i`), so that the
  definitions compute by kernel reduction.
-/

namespace Protocols

/-- Modulus of C `uint32_t` arithmetic. -/
def W32 : Nat := 4294967296

/-- C `uint32_t` subtraction `a - b` (wraps modulo `2^32`), for `a, b < W32`. -/
def sub32 (a b : Nat) : Nat := (W32 + a - b) % W32

/-- The four configuration members shared by `AodvExample` and `DsdvExample`:
`size`, `nodeRM` (both `uint32_t`), `duration` (`double`), `pcap` (`bool`). -/
structure Config where
  size : Nat
  nodeRM : Nat
  duration : Rat
  pcap : Bool
deriving DecidableEq

/-- Member initializers of the `AodvExample` constructor:
`size (5), nodeRM (1), duration (50), pcap (false)`. -/
def aodvInit : Config := ⟨5, 1, 50, false⟩

/-- Member initializers of the `DsdvExample` constructor:
`size (5), nodeRM (1), duration (50), pcap (false)`. -/
def dsdvInit : Config := ⟨5, 1, 50, false⟩

/-- A value supplied for a command-line flag (the three member types bound by
`cmd.AddValue` in the source: `bool`, `uint32_t`, `double`). -/
inductive ArgVal
| boolV (b : Bool)
| natV (n : Nat)
| ratV (q : Rat)
deriving DecidableEq

/-- One `cmd.AddValue (name, help, member)` registration. -/
structure FlagDecl where
  flag : String
  help : String
deriving DecidableEq

/-- The flags registered by `AodvExample::Configure`, in registration order. -/
def aodvFlagDecls : List FlagDecl :=
  [⟨"pcap", "Write PCAP traces."⟩,
   ⟨"size", "Number of nodes."⟩,
   ⟨"time", "Simulation time, s."⟩,
   ⟨"fail", "Number of Nodes to move away."⟩]

/-- The flags registered by `DsdvExample::Configure`, in registration order. -/
def dsdvFlagDecls : List FlagDecl :=
  [⟨"pcap", "Write PCAP traces."⟩,
   ⟨"size", "Number of nodes."⟩,
   ⟨"time", "Simulation time, s."⟩,
   ⟨"fail", "Number of Nodes to move away."⟩]

/-- Effect of one supplied command-line argument on the `AodvExample`
members, per the `AddValue` bindings of `AodvExample::Configure`.  A numeric
value is stored into a `uint32_t` member, hence the reduction mod `2^32`. -/
def applyAodvArg (c : Config) (a : String × ArgVal) : Config :=
  if a.1 = "pcap" then
    match a.2 with
    | ArgVal.boolV b => { c with pcap := b }
    | _ => c
  else if a.1 = "size" then
    match a.2 with
    | ArgVal.natV n => { c with size := n % W32 }
    | _ => c
  else if a.1 = "time" then
    match a.2 with
    | ArgVal.ratV q => { c with duration := q }
    | _ => c
  else if a.1 = "fail" then
    match a.2 with
    | ArgVal.natV n => { c with nodeRM := n % W32 }
    | _ => c
  else c

/-- Effect of one supplied command-line argument on the `DsdvExample`
members, per the `AddValue` bindings of `DsdvExample::Configure`. -/
def applyDsdvArg (c : Config) (a : String × ArgVal) : Config :=
  if a.1 = "pcap" then
    match a.2 with
    | ArgVal.boolV b => { c with pcap := b }
    | _ => c
  else if a.1 = "size" then
    match a.2 with
    | ArgVal.natV n => { c with size := n % W32 }
    | _ => c
  else if a.1 = "time" then
    match a.2 with
    | ArgVal.ratV q => { c with duration := q }
    | _ => c
  else if a.1 = "fail" then
    match a.2 with
    | ArgVal.natV n => { c with nodeRM := n % W32 }
    | _ => c
  else c

/-- The seed chosen after parsing: `8765` if `size == 45`, else `1234`
(the `SeedManager::SetSeed` branch in both `Configure` methods). -/
def seedOf (size : Nat) : Nat := if size = 45 then 8765 else 1234

/-- Result of a `Configure` call: the final members, the seed passed to
`SeedManager::SetSeed`, and the returned `bool`. -/
structure ConfigureResult where
  cfg : Config
  seed : Nat
  ok : Bool
deriving DecidableEq

/-- `AodvExample::Configure`: parse the supplied arguments over the
constructor defaults, set the seed, return `true`. -/
def aodvConfigure (args : List (String × ArgVal)) : ConfigureResult :=
  let c := args.foldl applyAodvArg aodvInit
  ⟨c, seedOf c.size, true⟩

/-- `DsdvExample::Configure`: parse the supplied arguments over the
constructor defaults, set the seed, return `true`. -/
def dsdvConfigure (args : List (String × ArgVal)) : ConfigureResult :=
  let c := args.foldl applyDsdvArg dsdvInit
  ⟨c, seedOf c.size, true⟩

/-- Name registration loop of `CreateNodes`: for `i` in `[0, size)`,
`Names::Add ("node(" << i << ")", ...)`.  `fuel` is the number of remaining
iterations, `i` the loop counter. -/
def namesGo : Nat → Nat → List String
  | 0, _ => []
  | fuel + 1, i => ("node(" ++ toString i ++ ")") :: namesGo fuel (i + 1)

/-- Framework arguments recorded by a `CreateNodes` call: the node count
passed to `NodeContainer::Create`, the registered node names, the position
allocator configuration and the mobility model. -/
structure CreateNodesResult where
  numNodes : Nat
  names : List String
  allocType : String
  allocX : String
  allocY : String
  allocRho : String
  mobilityModel : String
deriving DecidableEq

/-- `AodvExample::CreateNodes`. -/
def aodvCreateNodes (size : Nat) : CreateNodesResult :=
  ⟨size, namesGo size 0,
   "ns3::RandomDiscPositionAllocator", "175.0", "175.0",
   "ns3::UniformRandomVariable[Min=0|Max=125]",
   "ns3::ConstantPositionMobilityModel"⟩

/-- `DsdvExample::CreateNodes`. -/
def dsdvCreateNodes (size : Nat) : CreateNodesResult :=
  ⟨size, namesGo size 0,
   "ns3::RandomDiscPositionAllocator", "175.0", "175.0",
   "ns3::UniformRandomVariable[Min=0|Max=125]",
   "ns3::ConstantPositionMobilityModel"⟩

/-- Framework arguments recorded by a `CreateDevices` call: MAC type, rate
manager with its attributes, and the PCAP trace file base name when PCAP
output is enabled. -/
structure DevicesResult where
  macType : String
  rateManager : String
  dataMode : String
  rtsCtsThreshold : Nat
  pcapFile : Option String
deriving DecidableEq

/-- `AodvExample::CreateDevices`. -/
def aodvCreateDevices (pcap : Bool) : DevicesResult :=
  ⟨"ns3::AdhocWifiMac", "ns3::ConstantRateWifiManager", "OfdmRate6Mbps", 0,
   if pcap then some "aodv" else none⟩

/-- `DsdvExample::CreateDevices`. -/
def dsdvCreateDevices (pcap : Bool) : DevicesResult :=
  ⟨"ns3::AdhocWifiMac", "ns3::ConstantRateWifiManager", "OfdmRate6Mbps", 0,
   if pcap then some "dsdv" else none⟩

/-- Framework arguments recorded by an `InstallInternetStack` call: the
routing helper installed, the IPv4 address base and mask, and the routing
table dump (file name and dump time in seconds). -/
structure StackResult where
  routingHelper : String
  baseAddr : String
  baseMask : String
  routesFile : String
  printTime : Rat
deriving DecidableEq

/-- `AodvExample::InstallInternetStack`. -/
def aodvInstallStack : StackResult :=
  ⟨"AodvHelper", "10.0.0.0", "255.0.0.0", "aodv.routes", 8⟩

/-- `DsdvExample::InstallInternetStack`. -/
def dsdvInstallStack : StackResult :=
  ⟨"DsdvHelper", "10.0.0.0", "255.0.0.0", "dsdv.routes", 8⟩

/-- The single `V4Ping` application installed by `InstallApplications`:
destination interface index (`size - 1` in `uint32_t` arithmetic), source
node index (`size / 2`), the `Verbose` attribute, start and stop times. -/
structure Ping where
  destIndex : Nat
  sourceNode : Nat
  verbose : Bool
  startTime : Rat
  stopTime : Rat
deriving DecidableEq

/-- One `Simulator::Schedule (Seconds (duration/2), &MobilityModel::SetPosition,
mob, Vector (rand()%10000, rand()%10000, rand()%10000))` call: the node moved,
the scheduled time, and the three coordinates. -/
structure Reloc where
  node : Nat
  time : Rat
  x : Nat
  y : Nat
  z : Nat
deriving DecidableEq

/-- Everything `InstallApplications` hands to the framework: the one ping
application and the list of scheduled relocation events, in scheduling
order. -/
structure AppsResult where
  ping : Ping
  relocs : List Reloc
deriving DecidableEq

/-- Fill loop of `InstallApplications`:
`for (i = 0, count = 0; i < size-2; i++, count++) { if (i == size/2) count++;
numbers[i] = count; }`.  `fuel` is the number of remaining iterations.
The C `int count` is modelled as an exact `Nat`; the two differ only when
`size < 2` makes the `uint32_t` bound `size-2` wrap around and `count`
overflow 2^31 iterations in, far past every index this development reads. -/
def fillGo (size : Nat) : Nat → Nat → Nat → List Nat
  | 0, _, _ => []
  | fuel + 1, i, count =>
    (if i = size / 2 then count + 1 else count) ::
      fillGo size fuel (i + 1) ((if i = size / 2 then count + 1 else count) + 1)

/-- The `numbers` array right after the fill loop, for array length `len`
(`len` is `size - 2` in `uint32_t` arithmetic at the call site). -/
def fillNumbers (size len : Nat) : List Nat := fillGo size len 0 0

/-- Value stored at index `j` by the fill loop (closed form proved below):
`j` below the skipped index `size / 2`, `j + 1` from there on. -/
def cval (size j : Nat) : Nat := if j < size / 2 then j else j + 1

/-- Value of the C `count` variable when the fill loop reaches `i`
(closed form used in the proof of `fillGo_closed`). -/
def cnt (size i : Nat) : Nat := if size / 2 < i then i + 1 else i

/-- One iteration body of the shuffle loop:
`temp = numbers[i]; numbers[i] = numbers[k]; numbers[k] = temp;`. -/
def swapL (l : List Nat) (i k : Nat) : List Nat :=
  (l.set i (l.getD k 0)).set k (l.getD i 0)

/-- Shuffle loop of `InstallApplications`:
`for (i = 0; i < size-2; i++) { int k = rand() % (size-2); ...swap... }`.
`r j` is the value of the `rand()` call made in iteration `j`; `fuel` is the
number of remaining iterations. -/
def shuffleGo (r : Nat → Nat) (len : Nat) : Nat → Nat → List Nat → List Nat
  | 0, _, l => l
  | fuel + 1, i, l => shuffleGo r len fuel (i + 1) (swapL l i (r i % len))

/-- The `numbers` array after the shuffle loop, as a function of `size` and
the `rand()` stream `r` (the shuffle consumes `r 0 .. r (len-1)`). -/
def numsFinal (size : Nat) (r : Nat → Nat) : List Nat :=
  shuffleGo r (sub32 size 2) (sub32 size 2) 0 (fillNumbers size (sub32 size 2))

/-- The relocation event scheduled in iteration `j` of the relocation loop,
moving node `nums[j]` at time `dur / 2` to coordinates obtained from the
`rand()` calls numbered `len + 3*j`, `len + 3*j + 1`, `len + 3*j + 2` of the
stream (`len` calls were already consumed by the shuffle loop). -/
def mkReloc (len : Nat) (dur : Rat) (r : Nat → Nat) (nums : List Nat) (j : Nat) : Reloc :=
  ⟨nums.getD j 0, dur / 2,
   r (len + 3 * j) % 10000, r (len + 3 * j + 1) % 10000, r (len + 3 * j + 2) % 10000⟩

/-- Relocation loop of `InstallApplications`:
`for (i = 0; i < nodeRM; i++) { node = nodes.Get (numbers[i]); ...;
Simulator::Schedule (Seconds (duration/2), ..., Vector (rand()%10000, ...)); }`.
Returns `none` when the loop reads `numbers[i]` past the end of the array or
passes an index `≥ size` to `nodes.Get` (the out-of-bounds cases); `fuel` is
the number of remaining iterations. -/
def relocGo (size len : Nat) (dur : Rat) (r : Nat → Nat) (nums : List Nat) :
    Nat → Nat → Option (List Reloc)
  | 0, _ => some []
  | fuel + 1, i =>
    match nums[i]? with
    | some n =>
      if n < size then
        (relocGo size len dur r nums fuel (i + 1)).map
          (fun rest => mkReloc len dur r nums i :: rest)
      else none
    | none => none

/-- `AodvExample::InstallApplications`.  The guard records the two container
accesses made while installing the ping (`interfaces.GetAddress (size - 1)`
and `nodes.Get (size / 2)`, each over containers of `size` elements); the
relocation loop then runs over the filled and shuffled `numbers` array. -/
def aodvInstallApplications (size nodeRM : Nat) (dur : Rat) (r : Nat → Nat) :
    Option AppsResult :=
  if sub32 size 1 < size ∧ size / 2 < size then
    (relocGo size (sub32 size 2) dur r (numsFinal size r) nodeRM 0).map
      (fun rl => ⟨⟨sub32 size 1, size / 2, true, 0, dur - 1 / 1000⟩, rl⟩)
  else none

/-- `DsdvExample::InstallApplications`. -/
def dsdvInstallApplications (size nodeRM : Nat) (dur : Rat) (r : Nat → Nat) :
    Option AppsResult :=
  if sub32 size 1 < size ∧ size / 2 < size then
    (relocGo size (sub32 size 2) dur r (numsFinal size r) nodeRM 0).map
      (fun rl => ⟨⟨sub32 size 1, size / 2, true, 0, dur - 1 / 1000⟩, rl⟩)
  else none

/-- The kind of a `Run` step, with the framework arguments erased. -/
inductive StepKind
| createNodes
| createDevices
| installStack
| installApps
| simStop
| simRun
| simDestroy
deriving DecidableEq

/-- One step performed by a `Run` method, with the arguments the program
hands to the framework. -/
inductive Step
| createNodes (res : CreateNodesResult)
| createDevices (res : DevicesResult)
| installStack (res : StackResult)
| installApps (res : Option AppsResult)
| simStop (t : Rat)
| simRun
| simDestroy
deriving DecidableEq

/-- Forget a step's arguments. -/
def stepKind : Step → StepKind
  | Step.createNodes _ => StepKind.createNodes
  | Step.createDevices _ => StepKind.createDevices
  | Step.installStack _ => StepKind.installStack
  | Step.installApps _ => StepKind.installApps
  | Step.simStop _ => StepKind.simStop
  | Step.simRun => StepKind.simRun
  | Step.simDestroy => StepKind.simDestroy

/-- `AodvExample::Run`: the four setup calls, then
`Simulator::Stop (Seconds (duration)); Simulator::Run (); Simulator::Destroy ()`. -/
def aodvRun (c : Config) (r : Nat → Nat) : List Step :=
  [Step.createNodes (aodvCreateNodes c.size),
   Step.createDevices (aodvCreateDevices c.pcap),
   Step.installStack aodvInstallStack,
   Step.installApps (aodvInstallApplications c.size c.nodeRM c.duration r),
   Step.simStop c.duration,
   Step.simRun,
   Step.simDestroy]

/-- `DsdvExample::Run`. -/
def dsdvRun (c : Config) (r : Nat → Nat) : List Step :=
  [Step.createNodes (dsdvCreateNodes c.size),
   Step.createDevices (dsdvCreateDevices c.pcap),
   Step.installStack dsdvInstallStack,
   Step.installApps (dsdvInstallApplications c.size c.nodeRM c.duration r),
   Step.simStop c.duration,
   Step.simRun,
   Step.simDestroy]

/-- Rename the protocol-specific strings of a step from their AODV spelling
to their DSDV spelling: the PCAP file base name, the routing helper and the
routing table dump file.  Everything else is kept unchanged. -/
def renameStr (s : String) : String :=
  if s = "aodv" then "dsdv"
  else if s = "AodvHelper" then "DsdvHelper"
  else if s = "aodv.routes" then "dsdv.routes"
  else s

/-- Apply `renameStr` to the protocol-specific fields of a step. -/
def renameStep : Step → Step
  | Step.createDevices d =>
      Step.createDevices { d with pcapFile := d.pcapFile.map renameStr }
  | Step.installStack s =>
      Step.installStack
        { s with routingHelper := renameStr s.routingHelper,
                 routesFile := renameStr s.routesFile }
  | s => s

/-- Outcome of `main`: which driver ran with which configuration and trace,
the fatal-error abort, or the error message for a selection other than
`'a'`/`'d'`. -/
inductive Outcome
| ranAodv (res : ConfigureResult) (trace : List Step)
| ranDsdv (res : ConfigureResult) (trace : List Step)
| fatalError
| badSelection
deriving DecidableEq

/-- `main`: read the protocol selection, `Configure`, abort with
`NS_FATAL_ERROR` when `Configure` returns `false`, otherwise `Run`. -/
def mainProg (select : Char) (args : List (String × ArgVal)) (r : Nat → Nat) :
    Outcome :=
  if select = 'a' then
    let res := aodvConfigure args
    if res.ok then Outcome.ranAodv res (aodvRun res.cfg r) else Outcome.fatalError
  else if select = 'd' then
    let res := dsdvConfigure args
    if res.ok then Outcome.ranDsdv res (dsdvRun res.cfg r) else Outcome.fatalError
  else Outcome.badSelection

/-- The all-zero `rand()` stream, used for concrete evaluations. -/
def zeroRand : Nat → Nat := fun _ => 0

/-- Number of relocation events of an `InstallApplications` result. -/
def relocCount (o : Option AppsResult) : Option Nat :=
  o.map (fun a => a.relocs.length)

/-! Lemmas about the embedding. -/

theorem sub32_eq_sub {a b : Nat} (hba : b ≤ a) (ha : a < W32) : sub32 a b = a - b := by
  unfold sub32
  have h1 : W32 + a - b = W32 + (a - b) := by omega
  rw [h1, Nat.add_mod_left]
  exact Nat.mod_eq_of_lt (by omega)

theorem fillGo_closed (size : Nat) :
    ∀ fuel i, fillGo size fuel i (cnt size i) =
      (List.range' i fuel).map (cval size) := by
  intro fuel
  induction fuel with
  | zero => intro i; rfl
  | succ m ih =>
    intro i
    have hhead : (if i = size / 2 then cnt size i + 1 else cnt size i) = cval size i := by
      unfold cnt cval; split_ifs <;> omega
    have hnext : cval size i + 1 = cnt size (i + 1) := by
      unfold cnt cval; split_ifs <;> omega
    calc fillGo size (m + 1) i (cnt size i)
        = (if i = size / 2 then cnt size i + 1 else cnt size i) ::
            fillGo size m (i + 1)
              ((if i = size / 2 then cnt size i + 1 else cnt size i) + 1) := rfl
      _ = cval size i :: fillGo size m (i + 1) (cnt size (i + 1)) := by
            rw [hhead, hnext]
      _ = cval size i :: (List.range' (i + 1) m).map (cval size) := by rw [ih]
      _ = (List.range' i (m + 1)).map (cval size) := by
            rw [List.range'_succ]; rfl

theorem fillNumbers_eq (size len : Nat) :
    fillNumbers size len = (List.range len).map (cval size) := by
  have h0 : cnt size 0 = 0 := by unfold cnt; split_ifs <;> omega
  have h := fillGo_closed size len 0
  rw [h0] at h
  rw [fillNumbers, h, List.range_eq_range']

theorem fillNumbers_length (size len : Nat) : (fillNumbers size len).length = len := by
  rw [fillNumbers_eq]; simp

theorem fillNumbers_nodup (size len : Nat) : (fillNumbers size len).Nodup := by
  rw [fillNumbers_eq]
  refine List.Nodup.map_on ?_ (List.nodup_range len)
  intro x _ y _ hxy
  unfold cval at hxy
  split_ifs at hxy <;> omega

theorem fillNumbers_le (size len : Nat) : ∀ x ∈ fillNumbers size len, x ≤ len := by
  rw [fillNumbers_eq]
  intro x hx
  rcases List.mem_map.1 hx with ⟨j, hj, rfl⟩
  have hj' := List.mem_range.1 hj
  unfold cval; split_ifs <;> omega

theorem fillNumbers_mem {size : Nat} (h3 : 3 ≤ size) (x : Nat) :
    x ∈ fillNumbers size (size - 2) ↔ x ≤ size - 2 ∧ x ≠ size / 2 := by
  rw [fillNumbers_eq]
  constructor
  · intro hx
    rcases List.mem_map.1 hx with ⟨j, hj, rfl⟩
    have hj' := List.mem_range.1 hj
    refine ⟨?_, ?_⟩ <;> (unfold cval; split_ifs <;> omega)
  · rintro ⟨hx1, hx2⟩
    by_cases h : x < size / 2
    · refine List.mem_map.2 ⟨x, List.mem_range.2 (by omega), ?_⟩
      unfold cval; rw [if_pos h]
    · refine List.mem_map.2 ⟨x - 1, List.mem_range.2 (by omega), ?_⟩
      unfold cval; rw [if_neg (by omega)]; omega

theorem fillNumbers_pos (len : Nat) : ∀ x ∈ fillNumbers 1 len, 1 ≤ x := by
  rw [fillNumbers_eq]
  intro x hx
  rcases List.mem_map.1 hx with ⟨j, _, rfl⟩
  unfold cval; split_ifs <;> omega

theorem swapL_length (l : List Nat) (i k : Nat) : (swapL l i k).length = l.length := by
  simp [swapL]

theorem count_swapL (l : List Nat) (i k x : Nat) (hi : i < l.length) (hk : k < l.length) :
    (swapL l i k).count x = l.count x := by
  have hgi : l.getD i 0 = l[i] := List.getD_eq_getElem l 0 hi
  have hgk : l.getD k 0 = l[k] := List.getD_eq_getElem l 0 hk
  have hpi : l[i] = x → 1 ≤ l.count x := fun h =>
    List.count_pos_iff.2 (h ▸ List.getElem_mem hi)
  have hpk : l[k] = x → 1 ≤ l.count x := fun h =>
    List.count_pos_iff.2 (h ▸ List.getElem_mem hk)
  unfold swapL
  rcases eq_or_ne i k with rfl | hik
  · rw [List.set_set, hgi, List.count_set _ _ _ _ hi]
    simp only [beq_iff_eq]
    split_ifs with h
    · have := hpi h; omega
    · omega
  · have hsw : (l.set i (l.getD k 0)).set k (l.getD i 0) = (l.set i l[k]).set k l[i] := by
      rw [hgi, hgk]
    have hk2 : k < (l.set i l[k]).length := by
      rw [List.length_set]; exact hk
    rw [hsw, List.count_set _ _ _ _ hk2, List.getElem_set_ne hik,
      List.count_set _ _ _ _ hi]
    simp only [beq_iff_eq]
    by_cases h1 : l[i] = x <;> by_cases h2 : l[k] = x
    · have := hpi h1; simp only [if_pos h1, if_pos h2]; omega
    · have := hpi h1; simp only [if_pos h1, if_neg h2]; omega
    · have := hpk h2; simp only [if_neg h1, if_pos h2]; omega
    · simp only [if_neg h1, if_neg h2]; omega

theorem swapL_perm (l : List Nat) (i k : Nat) (hi : i < l.length) (hk : k < l.length) :
    (swapL l i k).Perm l :=
  List.perm_iff_count.2 fun x => count_swapL l i k x hi hk

theorem shuffleGo_perm (r : Nat → Nat) (len : Nat) :
    ∀ fuel i l, l.length = len → i + fuel ≤ len → (shuffleGo r len fuel i l).Perm l := by
  intro fuel
  induction fuel with
  | zero => intro i l _ _; exact List.Perm.refl l
  | succ m ih =>
    intro i l hlen hle
    have hi : i < l.length := by omega
    have hk : r i % len < l.length := by
      rw [hlen]; exact Nat.mod_lt _ (by omega)
    have hlen2 : (swapL l i (r i % len)).length = len := by
      rw [swapL_length, hlen]
    have hrec := ih (i + 1) (swapL l i (r i % len)) hlen2 (by omega)
    exact hrec.trans (swapL_perm l i (r i % len) hi hk)

theorem numsFinal_perm (size : Nat) (r : Nat → Nat) :
    (numsFinal size r).Perm (fillNumbers size (sub32 size 2)) := by
  unfold numsFinal
  exact shuffleGo_perm r (sub32 size 2) (sub32 size 2) 0 _
    (fillNumbers_length size (sub32 size 2)) (by omega)

theorem numsFinal_length (size : Nat) (r : Nat → Nat) :
    (numsFinal size r).length = sub32 size 2 := by
  rw [(numsFinal_perm size r).length_eq, fillNumbers_length]

theorem numsFinal_nodup (size : Nat) (r : Nat → Nat) : (numsFinal size r).Nodup :=
  (numsFinal_perm size r).nodup_iff.2 (fillNumbers_nodup size (sub32 size 2))

theorem numsFinal_le (size : Nat) (r : Nat → Nat) :
    ∀ x ∈ numsFinal size r, x ≤ sub32 size 2 := fun x hx =>
  fillNumbers_le size (sub32 size 2) x ((numsFinal_perm size r).mem_iff.1 hx)

theorem numsFinal_mem {size : Nat} (r : Nat → Nat) (h3 : 3 ≤ size) (hw : size < W32)
    (x : Nat) : x ∈ numsFinal size r ↔ x ≤ size - 2 ∧ x ≠ size / 2 := by
  rw [(numsFinal_perm size r).mem_iff, sub32_eq_sub (by omega) hw]
  exact fillNumbers_mem h3 x

theorem numsFinal_pos (r : Nat → Nat) : ∀ x ∈ numsFinal 1 r, 1 ≤ x := fun x hx =>
  fillNumbers_pos (sub32 1 2) x ((numsFinal_perm 1 r).mem_iff.1 hx)

theorem relocGo_closed (size len : Nat) (dur : Rat) (r : Nat → Nat) (nums : List Nat)
    (hin : ∀ x ∈ nums, x < size) :
    ∀ fuel i, i + fuel ≤ nums.length →
      relocGo size len dur r nums fuel i =
        some ((List.range' i fuel).map (mkReloc len dur r nums)) := by
  intro fuel
  induction fuel with
  | zero => intro i _; rfl
  | succ m ih =>
    intro i hle
    have hi : i < nums.length := by omega
    have hsome : nums[i]? = some nums[i] := List.getElem?_eq_getElem hi
    have hlt : nums[i] < size := hin _ (List.getElem_mem hi)
    simp only [relocGo, hsome]
    rw [if_pos hlt, ih (i + 1) (by omega), Option.map_some', List.range'_succ]
    rfl

theorem relocGo_none (size len : Nat) (dur : Rat) (r : Nat → Nat) (nums : List Nat)
    (hin : ∀ x ∈ nums, x < size) :
    ∀ fuel i, i ≤ nums.length → nums.length < i + fuel →
      relocGo size len dur r nums fuel i = none := by
  intro fuel
  induction fuel with
  | zero => intro i h1 h2; omega
  | succ m ih =>
    intro i h1 h2
    rcases eq_or_lt_of_le h1 with heq | hlt
    · have hnone : nums[i]? = none := List.getElem?_eq_none (by omega)
      simp only [relocGo, hnone]
    · have hi : i < nums.length := hlt
      have hsome : nums[i]? = some nums[i] := List.getElem?_eq_getElem hi
      have hltx : nums[i] < size := hin _ (List.getElem_mem hi)
      simp only [relocGo, hsome]
      rw [if_pos hltx, ih (i + 1) (by omega) (by omega)]
      rfl

theorem relocGo_none_bad (size len : Nat) (dur : Rat) (r : Nat → Nat) (nums : List Nat)
    (fuel : Nat) (hf : 0 < fuel) (h0 : 0 < nums.length)
    (hbad : ¬ nums.getD 0 0 < size) :
    relocGo size len dur r nums fuel 0 = none := by
  rcases fuel with _ | m
  · omega
  · have hsome : nums[0]? = some nums[0] := List.getElem?_eq_getElem h0
    rw [List.getD_eq_getElem nums 0 h0] at hbad
    simp only [relocGo, hsome]
    rw [if_neg hbad]

theorem install_some {size nodeRM : Nat} (dur : Rat) (r : Nat → Nat)
    (h2 : 2 ≤ size) (hw : size < W32) (hn : nodeRM ≤ size - 2) :
    aodvInstallApplications size nodeRM dur r =
      some ⟨⟨size - 1, size / 2, true, 0, dur - 1 / 1000⟩,
            (List.range nodeRM).map (mkReloc (size - 2) dur r (numsFinal size r))⟩ := by
  have hs1 : sub32 size 1 = size - 1 := sub32_eq_sub (by omega) hw
  have hs2 : sub32 size 2 = size - 2 := sub32_eq_sub (by omega) hw
  have hlen : (numsFinal size r).length = size - 2 := by
    rw [numsFinal_length, hs2]
  have hin : ∀ x ∈ numsFinal size r, x < size := by
    intro x hx
    have := numsFinal_le size r x hx
    omega
  unfold aodvInstallApplications
  rw [hs1, hs2, if_pos ⟨by omega, by omega⟩,
    relocGo_closed size (size - 2) dur r _ hin nodeRM 0 (by omega),
    Option.map_some', List.range_eq_range']

theorem dsdv_install_eq : dsdvInstallApplications = aodvInstallApplications := rfl

theorem relocList_length (len : Nat) (dur : Rat) (r : Nat → Nat) (nums : List Nat)
    (n : Nat) : ((List.range n).map (mkReloc len dur r nums)).length = n := by
  simp

theorem relocList_node_mem (len : Nat) (dur : Rat) (r : Nat → Nat) (nums : List Nat)
    {n : Nat} (hle : n ≤ nums.length) :
    ∀ e ∈ (List.range n).map (mkReloc len dur r nums), e.node ∈ nums := by
  intro e he
  rcases List.mem_map.1 he with ⟨j, hj, rfl⟩
  have hj' : j < nums.length := lt_of_lt_of_le (List.mem_range.1 hj) hle
  show nums.getD j 0 ∈ nums
  rw [List.getD_eq_getElem nums 0 hj']
  exact List.getElem_mem hj'

theorem relocList_nodes_nodup (len : Nat) (dur : Rat) (r : Nat → Nat) (nums : List Nat)
    {n : Nat} (hnd : nums.Nodup) (hle : n ≤ nums.length) :
    (((List.range n).map (mkReloc len dur r nums)).map Reloc.node).Nodup := by
  rw [List.map_map]
  refine List.Nodup.map_on ?_ (List.nodup_range n)
  intro a ha b hb hab
  have ha' : a < nums.length := lt_of_lt_of_le (List.mem_range.1 ha) hle
  have hb' : b < nums.length := lt_of_lt_of_le (List.mem_range.1 hb) hle
  have hab' : nums.getD a 0 = nums.getD b 0 := hab
  rw [List.getD_eq_getElem nums 0 ha', List.getD_eq_getElem nums 0 hb'] at hab'
  exact hnd.getElem_inj_iff.1 hab'

theorem relocList_time (len : Nat) (dur : Rat) (r : Nat → Nat) (nums : List Nat)
    (n : Nat) : ∀ e ∈ (List.range n).map (mkReloc len dur r nums), e.time = dur / 2 := by
  intro e he
  rcases List.mem_map.1 he with ⟨j, _, rfl⟩
  rfl

theorem relocList_coords (len : Nat) (dur : Rat) (r : Nat → Nat) (nums : List Nat)
    (n : Nat) : ∀ e ∈ (List.range n).map (mkReloc len dur r nums),
      ∃ m, e.x = r m % 10000 ∧ e.y = r (m + 1) % 10000 ∧ e.z = r (m + 2) % 10000 := by
  intro e he
  rcases List.mem_map.1 he with ⟨j, _, rfl⟩
  exact ⟨len + 3 * j, rfl, rfl, rfl⟩

theorem namesGo_closed :
    ∀ fuel i, namesGo fuel i =
      (List.range' i fuel).map (fun j => "node(" ++ toString j ++ ")") := by
  intro fuel
  induction fuel with
  | zero => intro i; rfl
  | succ m ih =>
    intro i
    rw [List.range'_succ]
    simp only [namesGo, ih, List.map_cons]

theorem namesGo_length (size : Nat) : (namesGo size 0).length = size := by
  rw [namesGo_closed]; simp

theorem namesGo_getD (size i : Nat) (h : i < size) :
    (namesGo size 0).getD i "" = "node(" ++ toString i ++ ")" := by
  rw [namesGo_closed]
  have hlen : i < ((List.range' 0 size).map
      (fun j => "node(" ++ toString j ++ ")")).length := by
    simpa using h
  rw [List.getD_eq_getElem _ _ hlen, List.getElem_map, List.getElem_range']
  norm_num

/-! Claim theorems. -/

/-- C1, counterexample: each `Configure` registers four command-line flags,
not five as claimed. -/
theorem claim_C1_counterexample :
    aodvFlagDecls.length ≠ 5 ∧ dsdvFlagDecls.length ≠ 5 := by decide

/-- C1, as amended: for both `AodvExample::Configure` and
`DsdvExample::Configure`, the command-line parser registers exactly four
flags, named `pcap`, `size`, `time`, `fail` (in this order), and each flag,
when supplied, sets the corresponding configuration member
(`pcap`, `size`, `duration`, `nodeRM`). -/
theorem claim_C1 (c : Config) (b : Bool) (n m : Nat) (q : Rat)
    (hn : n < W32) (hm : m < W32) :
    aodvFlagDecls.length = 4 ∧ dsdvFlagDecls.length = 4 ∧
    aodvFlagDecls.map FlagDecl.flag = ["pcap", "size", "time", "fail"] ∧
    dsdvFlagDecls.map FlagDecl.flag = ["pcap", "size", "time", "fail"] ∧
    applyAodvArg c ("pcap", ArgVal.boolV b) = { c with pcap := b } ∧
    applyAodvArg c ("size", ArgVal.natV n) = { c with size := n } ∧
    applyAodvArg c ("time", ArgVal.ratV q) = { c with duration := q } ∧
    applyAodvArg c ("fail", ArgVal.natV m) = { c with nodeRM := m } ∧
    applyDsdvArg c ("pcap", ArgVal.boolV b) = { c with pcap := b } ∧
    applyDsdvArg c ("size", ArgVal.natV n) = { c with size := n } ∧
    applyDsdvArg c ("time", ArgVal.ratV q) = { c with duration := q } ∧
    applyDsdvArg c ("fail", ArgVal.natV m) = { c with nodeRM := m } := by
  have hsA : applyAodvArg c ("size", ArgVal.natV n) = { c with size := n % W32 } := rfl
  have hfA : applyAodvArg c ("fail", ArgVal.natV m) = { c with nodeRM := m % W32 } := rfl
  have hsD : applyDsdvArg c ("size", ArgVal.natV n) = { c with size := n % W32 } := rfl
  have hfD : applyDsdvArg c ("fail", ArgVal.natV m) = { c with nodeRM := m % W32 } := rfl
  refine ⟨rfl, rfl, rfl, rfl, rfl, ?_, rfl, ?_, rfl, ?_, rfl, ?_⟩
  · rw [hsA, Nat.mod_eq_of_lt hn]
  · rw [hfA, Nat.mod_eq_of_lt hm]
  · rw [hsD, Nat.mod_eq_of_lt hn]
  · rw [hfD, Nat.mod_eq_of_lt hm]

/-- C1, witness: the amended claim at concrete inputs. -/
theorem claim_C1_witness :
    aodvFlagDecls.length = 4 ∧ dsdvFlagDecls.length = 4 ∧
    aodvFlagDecls.map FlagDecl.flag = ["pcap", "size", "time", "fail"] ∧
    dsdvFlagDecls.map FlagDecl.flag = ["pcap", "size", "time", "fail"] ∧
    applyAodvArg aodvInit ("pcap", ArgVal.boolV true) = { aodvInit with pcap := true } ∧
    applyAodvArg aodvInit ("size", ArgVal.natV 7) = { aodvInit with size := 7 } ∧
    applyAodvArg aodvInit ("time", ArgVal.ratV 60) = { aodvInit with duration := 60 } ∧
    applyAodvArg aodvInit ("fail", ArgVal.natV 2) = { aodvInit with nodeRM := 2 } ∧
    applyDsdvArg aodvInit ("pcap", ArgVal.boolV true) = { aodvInit with pcap := true } ∧
    applyDsdvArg aodvInit ("size", ArgVal.natV 7) = { aodvInit with size := 7 } ∧
    applyDsdvArg aodvInit ("time", ArgVal.ratV 60) = { aodvInit with duration := 60 } ∧
    applyDsdvArg aodvInit ("fail", ArgVal.natV 2) = { aodvInit with nodeRM := 2 } :=
  claim_C1 aodvInit true 7 2 60 (by decide) (by decide)

/-- C4: the only failure branch of `main` is the fatal-error check on the
result of `Configure`; both `Configure` methods return `true` on every
input, so `main` never reaches the fatal-error branch. -/
theorem claim_C4 (select : Char) (args : List (String × ArgVal)) (r : Nat → Nat) :
    (aodvConfigure args).ok = true ∧ (dsdvConfigure args).ok = true ∧
    mainProg select args r ≠ Outcome.fatalError := by
  refine ⟨rfl, rfl, ?_⟩
  simp only [mainProg]
  by_cases h1 : select = 'a'
  · rw [if_pos h1, if_pos (show (aodvConfigure args).ok = true from rfl)]
    exact fun hcon => Outcome.noConfusion hcon
  · rw [if_neg h1]
    by_cases h2 : select = 'd'
    · rw [if_pos h2, if_pos (show (dsdvConfigure args).ok = true from rfl)]
      exact fun hcon => Outcome.noConfusion hcon
    · rw [if_neg h2]
      exact fun hcon => Outcome.noConfusion hcon

/-- C4, witness: concrete run of `main` selecting AODV with no arguments. -/
theorem claim_C4_witness :
    (aodvConfigure []).ok = true ∧ (dsdvConfigure []).ok = true ∧
    mainProg 'a' [] zeroRand ≠ Outcome.fatalError :=
  claim_C4 'a' [] zeroRand

/-- C5: `AodvExample` and `DsdvExample` are equivalent drivers: `Configure`
is literally the same function for both, and on any configuration and
random state the `Run` traces coincide after renaming the routing helper
(`AodvHelper` to `DsdvHelper`) and the output file names (`aodv` to `dsdv`,
`aodv.routes` to `dsdv.routes`). -/
theorem claim_C5 :
    (∀ args, aodvConfigure args = dsdvConfigure args) ∧
    (∀ c r, (aodvRun c r).map renameStep = dsdvRun c r) := by
  constructor
  · intro args; rfl
  · intro c r
    obtain ⟨s, n, d, p⟩ := c
    cases p <;> rfl

/-- C6: `Run` performs the fixed call sequence `CreateNodes`,
`CreateDevices`, `InstallInternetStack`, `InstallApplications`,
`Simulator::Stop (Seconds (duration))`, `Simulator::Run`,
`Simulator::Destroy`, in this order, on every configuration and random
state; the fifth step stops the simulator at time `duration`. -/
theorem claim_C6 (c : Config) (r : Nat → Nat) :
    (aodvRun c r).map stepKind =
      [StepKind.createNodes, StepKind.createDevices, StepKind.installStack,
       StepKind.installApps, StepKind.simStop, StepKind.simRun, StepKind.simDestroy] ∧
    (dsdvRun c r).map stepKind =
      [StepKind.createNodes, StepKind.createDevices, StepKind.installStack,
       StepKind.installApps, StepKind.simStop, StepKind.simRun, StepKind.simDestroy] ∧
    (aodvRun c r)[4]? = some (Step.simStop c.duration) ∧
    (dsdvRun c r)[4]? = some (Step.simStop c.duration) :=
  ⟨rfl, rfl, rfl, rfl⟩

/-- C7: `CreateNodes` (either protocol) creates exactly `size` nodes, names
node `i` as `node(i)` for every `i < size`, and installs the fixed
random-disc position allocator centered at `(175.0, 175.0)` with `Rho`
uniform in `[0, 125]`, together with the constant-position mobility
model. -/
theorem claim_C7 (size : Nat) :
    (aodvCreateNodes size).numNodes = size ∧
    (aodvCreateNodes size).names.length = size ∧
    (∀ i, i < size →
      (aodvCreateNodes size).names.getD i "" = "node(" ++ toString i ++ ")") ∧
    (aodvCreateNodes size).allocType = "ns3::RandomDiscPositionAllocator" ∧
    (aodvCreateNodes size).allocX = "175.0" ∧
    (aodvCreateNodes size).allocY = "175.0" ∧
    (aodvCreateNodes size).allocRho = "ns3::UniformRandomVariable[Min=0|Max=125]" ∧
    (aodvCreateNodes size).mobilityModel = "ns3::ConstantPositionMobilityModel" ∧
    dsdvCreateNodes size = aodvCreateNodes size := by
  refine ⟨rfl, namesGo_length size, ?_, rfl, rfl, rfl, rfl, rfl, rfl⟩
  intro i h
  exact namesGo_getD size i h

/-- C7, witness: the node-creation result at `size = 3`. -/
theorem claim_C7_witness :
    (aodvCreateNodes 3).numNodes = 3 ∧
    (aodvCreateNodes 3).names.length = 3 ∧
    (∀ i, i < 3 →
      (aodvCreateNodes 3).names.getD i "" = "node(" ++ toString i ++ ")") ∧
    (aodvCreateNodes 3).allocType = "ns3::RandomDiscPositionAllocator" ∧
    (aodvCreateNodes 3).allocX = "175.0" ∧
    (aodvCreateNodes 3).allocY = "175.0" ∧
    (aodvCreateNodes 3).allocRho = "ns3::UniformRandomVariable[Min=0|Max=125]" ∧
    (aodvCreateNodes 3).mobilityModel = "ns3::ConstantPositionMobilityModel" ∧
    dsdvCreateNodes 3 = aodvCreateNodes 3 :=
  claim_C7 3

/-- C10: the seed configured by either `Configure` is `8765` when the parsed
`size` equals `45` and `1234` otherwise, hence it is a function of the
parsed `size` alone, and two runs parsing the same `size` configure the
same seed. -/
theorem claim_C10 (args a1 a2 : List (String × ArgVal))
    (h1 : (aodvConfigure a1).cfg.size = (aodvConfigure a2).cfg.size)
    (h2 : (dsdvConfigure a1).cfg.size = (dsdvConfigure a2).cfg.size) :
    (aodvConfigure args).seed =
      (if (aodvConfigure args).cfg.size = 45 then 8765 else 1234) ∧
    (dsdvConfigure args).seed =
      (if (dsdvConfigure args).cfg.size = 45 then 8765 else 1234) ∧
    (aodvConfigure a1).seed = (aodvConfigure a2).seed ∧
    (dsdvConfigure a1).seed = (dsdvConfigure a2).seed := by
  refine ⟨rfl, rfl, ?_, ?_⟩
  · exact congrArg seedOf h1
  · exact congrArg seedOf h2

/-- C10, witness: the seed rule at concrete argument lists (two lists that
parse the same `size` yield the same seed). -/
theorem claim_C10_witness :
    (aodvConfigure [("size", ArgVal.natV 45)]).seed =
      (if (aodvConfigure [("size", ArgVal.natV 45)]).cfg.size = 45 then 8765 else 1234) ∧
    (dsdvConfigure [("size", ArgVal.natV 45)]).seed =
      (if (dsdvConfigure [("size", ArgVal.natV 45)]).cfg.size = 45 then 8765 else 1234) ∧
    (aodvConfigure []).seed = (aodvConfigure [("time", ArgVal.ratV 9)]).seed ∧
    (dsdvConfigure []).seed = (dsdvConfigure [("time", ArgVal.ratV 9)]).seed :=
  claim_C10 [("size", ArgVal.natV 45)] [] [("time", ArgVal.ratV 9)]
    (by decide) (by decide)

/-- C2, counterexample: an in-bounds run with `nodeRM = 2` (default `size`
of 5, duration 50) schedules two relocation events, not exactly one. -/
theorem claim_C2_counterexample :
    relocCount (aodvInstallApplications 5 2 50 zeroRand) ≠ some 1 ∧
    relocCount (dsdvInstallApplications 5 2 50 zeroRand) ≠ some 1 ∧
    relocCount (aodvInstallApplications 5 2 50 zeroRand) = some 2 ∧
    relocCount (dsdvInstallApplications 5 2 50 zeroRand) = some 2 := by decide

/-- C2, as amended: on every run of `InstallApplications` (either protocol)
that stays in bounds (`2 ≤ size`, `nodeRM ≤ size - 2`), exactly one ping
application is installed, on node `size / 2` targeting the address of node
`size - 1`, and exactly `nodeRM` randomized node-relocation events are
scheduled, one per relocated node. -/
theorem claim_C2 (size nodeRM : Nat) (dur : Rat) (r : Nat → Nat)
    (h2 : 2 ≤ size) (hw : size < W32) (hn : nodeRM ≤ size - 2) :
    ∃ apps, aodvInstallApplications size nodeRM dur r = some apps ∧
      dsdvInstallApplications size nodeRM dur r = some apps ∧
      apps.ping.sourceNode = size / 2 ∧
      apps.ping.destIndex = size - 1 ∧
      apps.relocs.length = nodeRM := by
  refine ⟨_, install_some dur r h2 hw hn, ?_, rfl, rfl, ?_⟩
  · rw [dsdv_install_eq]
    exact install_some dur r h2 hw hn
  · exact relocList_length _ dur r _ nodeRM

/-- C2, witness: the amended claim at `size = 5`, `nodeRM = 1`. -/
theorem claim_C2_witness :
    ∃ apps, aodvInstallApplications 5 1 50 zeroRand = some apps ∧
      dsdvInstallApplications 5 1 50 zeroRand = some apps ∧
      apps.ping.sourceNode = 2 ∧
      apps.ping.destIndex = 4 ∧
      apps.relocs.length = 1 :=
  claim_C2 5 1 50 zeroRand (by decide) (by decide) (by decide)

/-- C3, counterexample: at the default `size = 5` with `nodeRM = 4`, the
relocation loop reads `numbers[3]` in an array of length 3, so the run
aborts out of bounds instead of scheduling exactly `nodeRM = 4`
relocations. -/
theorem claim_C3_counterexample :
    aodvInstallApplications 5 4 50 zeroRand = none ∧
    dsdvInstallApplications 5 4 50 zeroRand = none ∧
    relocCount (aodvInstallApplications 5 4 50 zeroRand) ≠ some 4 := by decide

/-- C3, as amended: for every configured duration and every
`nodeRM ≤ size - 2` (with `2 ≤ size`), the program schedules the relocation
of exactly `nodeRM` distinct nodes, each relocation occurring at simulation
time `duration / 2`, and each relocated node is assigned a new position
whose x, y, z coordinates are each drawn as `rand() % 10000` (three
consecutive values of the `rand()` stream). -/
theorem claim_C3 (size nodeRM : Nat) (dur : Rat) (r : Nat → Nat)
    (h2 : 2 ≤ size) (hw : size < W32) (hn : nodeRM ≤ size - 2) :
    ∃ apps, aodvInstallApplications size nodeRM dur r = some apps ∧
      dsdvInstallApplications size nodeRM dur r = some apps ∧
      apps.relocs.length = nodeRM ∧
      (apps.relocs.map Reloc.node).Nodup ∧
      (∀ e ∈ apps.relocs, e.time = dur / 2) ∧
      (∀ e ∈ apps.relocs,
        ∃ m, e.x = r m % 10000 ∧ e.y = r (m + 1) % 10000 ∧ e.z = r (m + 2) % 10000) := by
  have hlen : nodeRM ≤ (numsFinal size r).length := by
    rw [numsFinal_length, sub32_eq_sub (by omega) hw]
    exact hn
  refine ⟨_, install_some dur r h2 hw hn, ?_, ?_, ?_, ?_, ?_⟩
  · rw [dsdv_install_eq]
    exact install_some dur r h2 hw hn
  · exact relocList_length _ dur r _ nodeRM
  · exact relocList_nodes_nodup _ dur r _ (numsFinal_nodup size r) hlen
  · exact relocList_time _ dur r _ nodeRM
  · exact relocList_coords _ dur r _ nodeRM

/-- C3, witness: the amended claim at `size = 5`, `nodeRM = 2`. -/
theorem claim_C3_witness :
    ∃ apps, aodvInstallApplications 5 2 50 zeroRand = some apps ∧
      dsdvInstallApplications 5 2 50 zeroRand = some apps ∧
      apps.relocs.length = 2 ∧
      (apps.relocs.map Reloc.node).Nodup ∧
      (∀ e ∈ apps.relocs, e.time = 50 / 2) ∧
      (∀ e ∈ apps.relocs,
        ∃ m, e.x = zeroRand m % 10000 ∧ e.y = zeroRand (m + 1) % 10000 ∧
          e.z = zeroRand (m + 2) % 10000) :=
  claim_C3 5 2 50 zeroRand (by decide) (by decide) (by decide)

/-- C8: for `3 ≤ size` and `nodeRM ≤ size - 2`, the entries of the shuffled
`numbers` array (the node indices eligible for relocation) form exactly the
set `{0, ..., size-2}` minus `{size/2}`; consequently neither the ping
source node `size / 2` nor the ping destination node `size - 1` is ever
relocated. -/
theorem claim_C8 (size nodeRM : Nat) (dur : Rat) (r : Nat → Nat)
    (h3 : 3 ≤ size) (hw : size < W32) (hn : nodeRM ≤ size - 2) :
    (∀ x, x ∈ numsFinal size r ↔ (x ≤ size - 2 ∧ x ≠ size / 2)) ∧
    (∀ apps, aodvInstallApplications size nodeRM dur r = some apps →
      ∀ e ∈ apps.relocs, e.node ≠ size / 2 ∧ e.node ≠ size - 1) ∧
    (∀ apps, dsdvInstallApplications size nodeRM dur r = some apps →
      ∀ e ∈ apps.relocs, e.node ≠ size / 2 ∧ e.node ≠ size - 1) := by
  have hmem := numsFinal_mem r h3 hw
  have hlen : nodeRM ≤ (numsFinal size r).length := by
    rw [numsFinal_length, sub32_eq_sub (by omega) hw]
    exact hn
  have hmain : ∀ apps, aodvInstallApplications size nodeRM dur r = some apps →
      ∀ e ∈ apps.relocs, e.node ≠ size / 2 ∧ e.node ≠ size - 1 := by
    intro apps happs e he
    rw [install_some dur r (by omega) hw hn] at happs
    injection happs with happs
    subst happs
    have hnode : e.node ∈ numsFinal size r :=
      relocList_node_mem _ dur r _ hlen e he
    have hx := (hmem e.node).1 hnode
    have hx1 := hx.1
    exact ⟨hx.2, by omega⟩
  refine ⟨hmem, hmain, ?_⟩
  rw [dsdv_install_eq]
  exact hmain

/-- C8, witness: eligibility at `size = 5`, `nodeRM = 1`: the eligible set
is `{0, 1, 3}` and no relocation touches node 2 or node 4. -/
theorem claim_C8_witness :
    (∀ x, x ∈ numsFinal 5 zeroRand ↔ (x ≤ 3 ∧ x ≠ 2)) ∧
    (∀ apps, aodvInstallApplications 5 1 50 zeroRand = some apps →
      ∀ e ∈ apps.relocs, e.node ≠ 2 ∧ e.node ≠ 4) ∧
    (∀ apps, dsdvInstallApplications 5 1 50 zeroRand = some apps →
      ∀ e ∈ apps.relocs, e.node ≠ 2 ∧ e.node ≠ 4) :=
  claim_C8 5 1 50 zeroRand (by decide) (by decide) (by decide)

/-- C9, counterexample: at `size = 2`, `nodeRM = 0` the run completes with
every access in bounds (the local array is empty and no loop body runs),
although the claim asserts an out-of-bounds access for every `size ≤ 2`. -/
theorem claim_C9_counterexample :
    (aodvInstallApplications 2 0 50 zeroRand).isSome = true ∧
    (dsdvInstallApplications 2 0 50 zeroRand).isSome = true := by decide

/-- C9, as amended: all array and container indexing in
`InstallApplications` is in bounds precisely when `2 ≤ size` and
`nodeRM ≤ size - 2`, or `size = 1` and `nodeRM = 0`; in every other case
(`size = 0`; `size = 1` with `nodeRM ≥ 1`, where all `numbers` entries are
node indices `≥ size`; `2 ≤ size` with `nodeRM > size - 2`, where
`numbers[size-2]` is read past the end of the array) an out-of-bounds
access occurs. -/
theorem claim_C9 (size nodeRM : Nat) (dur : Rat) (r : Nat → Nat) (hw : size < W32) :
    ((aodvInstallApplications size nodeRM dur r).isSome = true ↔
      ((2 ≤ size ∧ nodeRM ≤ size - 2) ∨ (size = 1 ∧ nodeRM = 0))) ∧
    ((dsdvInstallApplications size nodeRM dur r).isSome = true ↔
      ((2 ≤ size ∧ nodeRM ≤ size - 2) ∨ (size = 1 ∧ nodeRM = 0))) := by
  have hmain : (aodvInstallApplications size nodeRM dur r).isSome = true ↔
      ((2 ≤ size ∧ nodeRM ≤ size - 2) ∨ (size = 1 ∧ nodeRM = 0)) := by
    rcases Nat.lt_or_ge size 1 with h0 | h1
    · have hz : size = 0 := by omega
      subst hz
      unfold aodvInstallApplications
      rw [if_neg (by intro hcon; exact absurd hcon.2 (by omega))]
      exact ⟨fun h => by simp at h, fun hr => absurd hr (by omega)⟩
    · rcases Nat.lt_or_ge size 2 with hlt2 | hge2
      · have h1e : size = 1 := by omega
        subst h1e
        rcases Nat.eq_zero_or_pos nodeRM with hz | hp
        · subst hz
          unfold aodvInstallApplications
          rw [if_pos ⟨by decide, by decide⟩,
            show relocGo 1 (sub32 1 2) dur r (numsFinal 1 r) 0 0 = some [] from rfl,
            Option.map_some']
          exact ⟨fun _ => Or.inr ⟨rfl, rfl⟩, fun _ => rfl⟩
        · have h0l : 0 < (numsFinal 1 r).length := by
            rw [numsFinal_length]
            decide
          have hbad : ¬ (numsFinal 1 r).getD 0 0 < 1 := by
            have hmm : (numsFinal 1 r).getD 0 0 ∈ numsFinal 1 r := by
              rw [List.getD_eq_getElem _ 0 h0l]
              exact List.getElem_mem h0l
            have := numsFinal_pos r _ hmm
            omega
          unfold aodvInstallApplications
          rw [if_pos ⟨by decide, by decide⟩,
            relocGo_none_bad 1 (sub32 1 2) dur r _ nodeRM hp h0l hbad,
            Option.map_none']
          exact ⟨fun h => by simp at h, fun hr => absurd hr (by omega)⟩
      · have hs1' : sub32 size 1 = size - 1 := sub32_eq_sub (by omega) hw
        have hs2' : sub32 size 2 = size - 2 := sub32_eq_sub (by omega) hw
        rcases le_or_lt nodeRM (size - 2) with hle | hgt
        · rw [install_some dur r hge2 hw hle]
          exact ⟨fun _ => Or.inl ⟨hge2, hle⟩, fun _ => rfl⟩
        · have hin : ∀ x ∈ numsFinal size r, x < size := by
            intro x hx
            have := numsFinal_le size r x hx
            omega
          have hlen : (numsFinal size r).length = size - 2 := by
            rw [numsFinal_length, hs2']
          unfold aodvInstallApplications
          rw [hs1', hs2', if_pos ⟨by omega, by omega⟩,
            relocGo_none size (size - 2) dur r _ hin nodeRM 0 (Nat.zero_le _)
              (by rw [hlen]; omega),
            Option.map_none']
          exact ⟨fun h => by simp at h, fun hr => absurd hr (by omega)⟩
  refine ⟨hmain, ?_⟩
  rw [dsdv_install_eq]
  exact hmain

/-- C9, witness: the amended in-bounds characterization at `size = 5`,
`nodeRM = 1`. -/
theorem claim_C9_witness :
    ((aodvInstallApplications 5 1 50 zeroRand).isSome = true ↔
      ((2 ≤ 5 ∧ 1 ≤ 3) ∨ (5 = 1 ∧ 1 = 0))) ∧
    ((dsdvInstallApplications 5 1 50 zeroRand).isSome = true ↔
      ((2 ≤ 5 ∧ 1 ≤ 3) ∨ (5 = 1 ∧ 1 = 0))) :=
  claim_C9 5 1 50 zeroRand (by decide)

end Protocols
